import Mathlib

/-!
Verification of the tiproxy traffic capture/replay subsystem and the
cluster-wide backend metrics reader, embedded shallowly from the Go sources:

* `pkg/sqlreplay/capture/filter.go` (sensitive-SQL filter),
* `pkg/sqlreplay/replay/replay.go` (replay engine: validation, pacing,
  per-connection dispatch, tombstones, progress),
* `pkg/balance/metricsreader/backend_reader.go` (history purge/merge,
  query-result merge, result lookup).

Machine integers are modelled as `Nat`/`Int` (no overflow is relevant at the
sizes involved), Go `float64` values as `ℚ`, Go maps either as association
lists (when presence matters) or as `String → Option _` functions (for the
pointwise history merges), and wall-clock instants as integer nanoseconds.
-/

/-! ### SQL lexer and sensitive-statement filter (`capture/filter.go`)

Modelled from the spec: the minimal SQL lexer `pkg/util/lex` (`NewLexer` /
`NextToken`) is not part of the provided sources.  Per the spec it tokenizes
SQL keywords case-insensitively, skipping whitespace and comments.  We skip
whitespace, block comments and line comments (starting with two dashes or a
hash), and a token is a maximal run of alphanumeric or underscore characters,
returned uppercased; the empty token signals end of input. -/

inductive LexMode where
  | normal
  | inBlock
  | inLine
deriving DecidableEq

/-- Skip whitespace and comments at the start of the character stream. -/
def skipIgnored : LexMode → List Char → List Char
  | _, [] => []
  | .normal, '/' :: '*' :: rest => skipIgnored .inBlock rest
  | .normal, '-' :: '-' :: rest => skipIgnored .inLine rest
  | .normal, '#' :: rest => skipIgnored .inLine rest
  | .normal, c :: rest => if c.isWhitespace then skipIgnored .normal rest else c :: rest
  | .inBlock, '*' :: '/' :: rest => skipIgnored .normal rest
  | .inBlock, _ :: rest => skipIgnored .inBlock rest
  | .inLine, '\n' :: rest => skipIgnored .normal rest
  | .inLine, _ :: rest => skipIgnored .inLine rest

/-- A token character: alphanumeric or underscore. -/
def tokenChar (c : Char) : Bool := c.isAlphanum || c = '_'

/-- `lexer.NextToken()`: the next uppercased keyword and the rest of the input. -/
def NextToken (l : List Char) : String × List Char :=
  let l2 := skipIgnored .normal l
  (((l2.takeWhile tokenChar).map Char.toUpper).asString, l2.dropWhile tokenChar)

/-- `sensitiveKeywords` from `capture/filter.go`: each entry is the first
keyword together with the optional required second keyword. -/
def sensitiveKeywords : List (String × Option String) :=
  [("CREATE", some "USER"), ("ALTER", some "USER"), ("SET", some "PASSWORD"),
   ("GRANT", none), ("BACKUP", none), ("RESTORE", none), ("IMPORT", none),
   ("LOAD", some "DATA")]

/-- The loop body of `IsSensitiveSQL`: as in the Go code, `keyword` is a loop
variable, so a failed second-keyword comparison advances it to the freshly
lexed token before the remaining entries are tried. -/
def isSensitiveFrom : List (String × Option String) → String → List Char → Bool
  | [], _, _ => false
  | (w1, second) :: rest, keyword, l =>
    if keyword = w1 then
      match second with
      | none => true
      | some w2 =>
        let p := NextToken l
        if p.1 = w2 then true else isSensitiveFrom rest p.1 p.2
    else isSensitiveFrom rest keyword l

/-- `IsSensitiveSQL` from `capture/filter.go`. -/
def IsSensitiveSQL (sql : String) : Bool :=
  let p := NextToken sql.toList
  if p.1 = "" then false else isSensitiveFrom sensitiveKeywords p.1 p.2

/-- The claim's reading of the filter, stated from the spec's words: the
statement's leading keywords begin with one of the sensitive prefixes. -/
def beginsWithSensitive (sql : String) : Bool :=
  let p1 := NextToken sql.toList
  let p2 := NextToken p1.2
  (p1.1 == "CREATE" && p2.1 == "USER") || (p1.1 == "ALTER" && p2.1 == "USER") ||
    (p1.1 == "SET" && p2.1 == "PASSWORD") || p1.1 == "GRANT" || p1.1 == "BACKUP" ||
    p1.1 == "RESTORE" || p1.1 == "IMPORT" || (p1.1 == "LOAD" && p2.1 == "DATA")

/-- Claim C1, counterexample: `IsSensitiveSQL "CREATE GRANT"` returns `true`
although the statement's leading keywords do not begin with any of the listed
sensitive keyword sequences, so the claimed if-and-only-if fails. -/
theorem isSensitiveSQL_not_leading_only :
    IsSensitiveSQL "CREATE GRANT" = true ∧ beginsWithSensitive "CREATE GRANT" = false := by
  decide

/-- Claim C1 (amended): `IsSensitiveSQL` returns `true` whenever the leading
keywords begin with a sensitive keyword sequence, but not only then: because
the Go loop keeps the freshly lexed second token as the current keyword after
a failed two-word match, a later one-word entry may match it (for example
`"CREATE GRANT"` is classified sensitive).  The concrete examples of the
claim all hold, and the empty string is not sensitive. -/
theorem isSensitiveSQL_spec :
    (∀ sql : String, beginsWithSensitive sql = true → IsSensitiveSQL sql = true) ∧
    IsSensitiveSQL "CREATE USER x IDENTIFIED BY 'p'" = true ∧
    IsSensitiveSQL "SELECT 1" = false ∧
    IsSensitiveSQL "set password for u = 'x'" = true ∧
    IsSensitiveSQL "BACKUP DATABASE d TO 's3://…'" = true ∧
    IsSensitiveSQL "" = false ∧
    IsSensitiveSQL "CREATE GRANT" = true := by
  refine ⟨?_, by decide, by decide, by decide, by decide, by decide, by decide⟩
  intro sql h
  simp only [beginsWithSensitive, Bool.or_eq_true, Bool.and_eq_true, beq_iff_eq,
    or_assoc] at h
  rcases hp : NextToken sql.toList with ⟨t1, l1⟩
  rw [hp] at h
  dsimp only at h
  rcases hq : NextToken l1 with ⟨t2, l2⟩
  rw [hq] at h
  dsimp only at h
  simp only [IsSensitiveSQL, hp]
  rcases h with ⟨h1, h2⟩ | ⟨h1, h2⟩ | ⟨h1, h2⟩ | h1 | h1 | h1 | h1 | ⟨h1, h2⟩ <;>
    subst h1 <;> simp [isSensitiveFrom, sensitiveKeywords, hq, *]

/-- Witness for C1: the forward direction applied to a concrete GRANT statement. -/
theorem isSensitiveSQL_spec_witness : IsSensitiveSQL "GRANT ALL ON db TO u" = true :=
  isSensitiveSQL_spec.1 "GRANT ALL ON db TO u" (by decide)

/-! ### Replay engine (`replay/replay.go`)

Durations and instants are integer nanoseconds; `time.Microsecond = 1000`.
`Speed` is a Go `float64`, modelled as `ℚ`; the conversion
`time.Duration(float64(d) / speed)` truncates toward zero, modelled by
`ratTrunc`. -/

/-- Go's `time.Duration(float64)` conversion: truncation toward zero. -/
def ratTrunc (q : ℚ) : ℤ := if 0 ≤ q then ⌊q⌋ else ⌈q⌉

/-- `expectedInterval` in `readCommands`: the captured offset of the command,
divided by `Speed` unless `Speed == 1`. -/
def pacerExpectedNs (speed : ℚ) (d : ℤ) : ℤ :=
  if speed = 1 then d else ratTrunc ((d : ℚ) / speed)

/-- The sleep performed before dispatching one command, given the expected
offset and the elapsed time since the first command (`curInterval`): the pacer
sleeps exactly when `curInterval + 1µs < expectedInterval`, for the deficit. -/
def pacerSleepNs (expected elapsed : ℤ) : ℤ :=
  if elapsed + 1000 < expected then expected - elapsed else 0

/-- Idealized dispatch instants of the commands after the first: sleeping is
exact and decoding/dispatch take no time, so the elapsed clock advances only
by the sleeps. -/
def paceFollow (speed : ℚ) (c0 : ℤ) : ℤ → List ℤ → List ℤ
  | _, [] => []
  | elapsed, ts :: rest =>
    let e := pacerExpectedNs speed (ts - c0)
    let s := pacerSleepNs e elapsed
    (elapsed + s) :: paceFollow speed c0 (elapsed + s) rest

/-- Idealized dispatch instants of a whole command list, measured from the
instant the first command is read (`replayStartTs`); the first command is
dispatched immediately. -/
def dispatchTimes (speed : ℚ) : List ℤ → List ℤ
  | [] => []
  | ts :: rest => 0 :: paceFollow speed ts 0 rest

/-- Claim C2: the pacer sleeps exactly when the elapsed time plus one
microsecond is below `expected = (StartTs − c0.StartTs) / Speed`, it sleeps
precisely the deficit (landing on `expected`), and for captured timestamps
{0ms, 100ms, 300ms} at Speed 2 the dispatch instants are {0ms, 50ms, 150ms}. -/
theorem pacing_spec :
    (∀ expected elapsed : ℤ, 0 < pacerSleepNs expected elapsed ↔ elapsed + 1000 < expected) ∧
    (∀ expected elapsed : ℤ, elapsed + 1000 < expected →
      elapsed + pacerSleepNs expected elapsed = expected) ∧
    (∀ expected elapsed : ℤ, ¬ elapsed + 1000 < expected → pacerSleepNs expected elapsed = 0) ∧
    dispatchTimes 2 [0, 100000000, 300000000] = [0, 50000000, 150000000] := by
  refine ⟨?_, ?_, ?_, ?_⟩
  · intro e el
    unfold pacerSleepNs
    split <;> omega
  · intro e el h
    simp only [pacerSleepNs, if_pos h]
    omega
  · intro e el h
    simp only [pacerSleepNs, if_neg h]
  · norm_num [dispatchTimes, paceFollow, pacerExpectedNs, pacerSleepNs, ratTrunc]

/-- Witness for C2: the deficit-sleep equation at expected 50ms, elapsed 0. -/
theorem pacing_spec_witness :
    (0 : ℤ) + 1000 < 50000000 ∧ (0 : ℤ) + pacerSleepNs 50000000 0 = 50000000 :=
  ⟨by decide, pacing_spec.2.1 50000000 0 (by decide)⟩

/-- `ReplayConfig` (test-only fields omitted). -/
structure ReplayConfig where
  input : String
  username : String
  password : String
  speed : ℚ
deriving DecidableEq

def minSpeed : ℚ := 1/10

def maxSpeed : ℚ := 10

/-- `ReplayConfig.Validate`.  `os.Stat` is modelled by an oracle
`stat : String → Option Bool` returning `none` when stat fails and
`some isDir` otherwise. -/
def ReplayConfig.Validate (cfg : ReplayConfig) (stat : String → Option Bool) :
    Except String ReplayConfig :=
  if cfg.input = "" then .error "input is required"
  else
    match stat cfg.input with
    | none => .error "stat failed"
    | some isDir =>
      if isDir = false then .error "output should be a directory"
      else if cfg.username = "" then .error "username is required"
      else if cfg.speed = 0 then .ok { cfg with speed := 1 }
      else if cfg.speed < minSpeed ∨ maxSpeed < cfg.speed then
        .error "speed should be between 0.1 and 10.0"
      else .ok cfg

/-- Outcome of `replay.Start`: the returned error and whether the two
background tasks (`readCommands` pacer, `readCloseCh` close-drain) were
spawned. -/
structure StartOutcome where
  err : Option String
  pacerStarted : Bool
  closeDrainStarted : Bool
deriving DecidableEq

/-- `replay.Start`: validate, then start the report (whose possible failure is
the oracle `reportStartErr`), then spawn the pacer and the close-drain task. -/
def replayStart (cfg : ReplayConfig) (stat : String → Option Bool)
    (reportStartErr : Option String) : StartOutcome :=
  match cfg.Validate stat with
  | .error e => ⟨some e, false, false⟩
  | .ok _ =>
    match reportStartErr with
    | some e => ⟨some e, false, false⟩
    | none => ⟨none, true, true⟩

/-- Claim C3: `Validate` succeeds iff the input names an existing directory,
the username is nonempty, and the speed is zero or lies in
`[minSpeed, maxSpeed] = [0.1, 10.0]`; a zero speed is replaced by the default
1; and on a validation error `Start` returns that error having started
neither the pacer nor the close-drain task. -/
theorem replay_validate_spec (stat : String → Option Bool) (cfg : ReplayConfig)
    (reportErr : Option String) :
    ((∃ c, cfg.Validate stat = .ok c) ↔
      ¬(cfg.input = "" ∨ stat cfg.input ≠ some true ∨ cfg.username = "" ∨
        (cfg.speed ≠ 0 ∧ (cfg.speed < minSpeed ∨ maxSpeed < cfg.speed)))) ∧
    (cfg.speed = 0 → ∀ c, cfg.Validate stat = .ok c → c = { cfg with speed := 1 }) ∧
    (∀ e, cfg.Validate stat = .error e →
      replayStart cfg stat reportErr = ⟨some e, false, false⟩) := by
  refine ⟨?_, ?_, ?_⟩
  · unfold ReplayConfig.Validate
    by_cases h1 : cfg.input = ""
    · simp [h1]
    · rcases hs : stat cfg.input with _ | b
      · simp [h1, hs]
      · rcases b with _ | _
        · simp [h1, hs]
        · by_cases h2 : cfg.username = ""
          · simp [h1, hs, h2]
          · by_cases h3 : cfg.speed = 0
            · simp [h1, hs, h2, h3]
            · by_cases h4 : cfg.speed < minSpeed ∨ maxSpeed < cfg.speed
              · simp [h1, hs, h2, h3, h4]
              · simp [h1, hs, h2, h3, h4]
  · intro h0 c hc
    unfold ReplayConfig.Validate at hc
    by_cases h1 : cfg.input = ""
    · simp [h1] at hc
    · rcases hs : stat cfg.input with _ | b
      · simp [h1, hs] at hc
      · rcases b with _ | _
        · simp [h1, hs] at hc
        · by_cases h2 : cfg.username = ""
          · simp [h1, hs, h2] at hc
          · simp [h1, hs, h2, h0] at hc
            exact hc.symm
  · intro e he
    unfold replayStart
    rw [he]

/-- Witness for C3: a config with empty input is rejected before any task is
started, and a zero speed validates to the default speed 1. -/
theorem replay_validate_spec_witness :
    replayStart ⟨"", "u", "", 0⟩ (fun _ => some true) none =
      ⟨some "input is required", false, false⟩ ∧
    ReplayConfig.mk "in" "u" "" 1 = { ReplayConfig.mk "in" "u" "" 0 with speed := 1 } :=
  ⟨(replay_validate_spec (fun _ => some true) ⟨"", "u", "", 0⟩ none).2.2
      "input is required" rfl,
    ((replay_validate_spec (fun _ => some true) ⟨"in", "u", "", 0⟩ none).2.1
      rfl (ReplayConfig.mk "in" "u" "" 1) rfl).symm ▸ rfl⟩

/-- MySQL command tags from `proxy/net/command.go` (iota order). -/
def ComQuery : ℕ := 3

def ComChangeUser : ℕ := 17

/-- A captured command record (fields used by the replay engine). -/
structure Cmd where
  connID : ℕ
  cmdType : ℕ
  startTs : ℤ
deriving DecidableEq

/-- Generic update-or-insert on an association list (Go map assignment). -/
def assocSet {α β : Type} [DecidableEq α] (m : List (α × β)) (k : α) (v : β) :
    List (α × β) :=
  match m with
  | [] => [(k, v)]
  | (k', v') :: rest => if k' = k then (k', v) :: rest else (k', v') :: assocSet rest k v

/-- The replay engine state touched by `executeCmd`/`readCommands`/`readCloseCh`.
`conns` is the Go map `map[uint64]conn.Conn`: a key bound to `true` is a live
connection, a key bound to `false` is a nil tombstone, an absent key was never
seen.  `opened` (which backend connections were created, with the credentials
used) and `dispatched` (which commands reached `conn.ExecuteCmd`) are ghost
observations. -/
structure ExecState where
  cfgUsername : String
  filteredCmds : ℕ
  replayedCmds : ℕ
  conns : List (ℕ × Bool)
  connCount : ℤ
  opened : List (ℕ × String)
  dispatched : List Cmd
deriving DecidableEq

/-- `replay.executeCmd`: an unknown `ConnID` creates a live connection (one
backend connection, opened with the replay-wide username) and dispatches; a
live `ConnID` dispatches; a tombstoned `ConnID` does nothing. -/
def executeCmd (s : ExecState) (c : Cmd) : ExecState :=
  match s.conns.lookup c.connID with
  | none =>
    { s with
      conns := assocSet s.conns c.connID true
      connCount := s.connCount + 1
      opened := s.opened ++ [(c.connID, s.cfgUsername)]
      dispatched := s.dispatched ++ [c] }
  | some true => { s with dispatched := s.dispatched ++ [c] }
  | some false => s

/-- One iteration of the `readCommands` loop for a decoded command (with the
pacing sleep, which does not touch this state, factored out into
`dispatchTimes`): `ComChangeUser` only counts as filtered, anything else
counts as replayed and is executed. -/
def readCmdStep (s : ExecState) (c : Cmd) : ExecState :=
  if c.cmdType = ComChangeUser then { s with filteredCmds := s.filteredCmds + 1 }
  else executeCmd { s with replayedCmds := s.replayedCmds + 1 } c

/-- The `readCommands` loop over a fully decoded input (no cancellation). -/
def readCommands (s : ExecState) (cmds : List Cmd) : ExecState :=
  cmds.foldl readCmdStep s

/-- `readCloseCh` handling one close event: a live connection is nilled out in
place (tombstoned) and the count drops; anything else is left alone. -/
def processClose (s : ExecState) (id : ℕ) : ExecState :=
  match s.conns.lookup id with
  | some true =>
    { s with conns := assocSet s.conns id false, connCount := s.connCount - 1 }
  | _ => s

/-- Fresh replay state for a given replay-wide username. -/
def initExecState (username : String) : ExecState := ⟨username, 0, 0, [], 0, [], []⟩

/-- Claim C4: a `ComChangeUser` command only increments `filteredCmds` — it is
never dispatched, creates no connection, and changes nothing else; and the
concrete input [ComChangeUser, ComQuery] on the same `ConnID` yields
`filteredCmds = 1`, `replayedCmds = 1`, and exactly one backend connection,
opened with the replay-wide username. -/
theorem changeUser_filtered_spec :
    (∀ (s : ExecState) (c : Cmd), c.cmdType = ComChangeUser →
      readCmdStep s c = { s with filteredCmds := s.filteredCmds + 1 }) ∧
    readCommands (initExecState "u") [⟨7, ComChangeUser, 0⟩, ⟨7, ComQuery, 0⟩] =
      ⟨"u", 1, 1, [(7, true)], 1, [(7, "u")], [⟨7, ComQuery, 0⟩]⟩ := by
  constructor
  · intro s c h
    simp [readCmdStep, h]
  · decide

/-- Witness for C4: the ChangeUser step applied at a concrete state. -/
theorem changeUser_filtered_spec_witness :
    readCmdStep (initExecState "u") ⟨7, ComChangeUser, 0⟩ =
      { initExecState "u" with filteredCmds := 0 + 1 } :=
  changeUser_filtered_spec.1 (initExecState "u") ⟨7, ComChangeUser, 0⟩ rfl

/-- Claim C6: after a close event for a live `ConnID` the map keeps a nil
tombstone for it, and a command for a tombstoned `ConnID` is silently
rejected: `executeCmd` neither dispatches it nor creates a worker or backend
connection (the state is unchanged). -/
theorem tombstone_spec :
    (∀ (s : ExecState) (id : ℕ), s.conns.lookup id = some true →
      (processClose s id).conns.lookup id = some false) ∧
    (∀ (s : ExecState) (c : Cmd), s.conns.lookup c.connID = some false →
      executeCmd s c = s) := by
  constructor
  · intro s id h
    have hset : ∀ (m : List (ℕ × Bool)) (k : ℕ) (v : Bool),
        (assocSet m k v).lookup k = some v := by
      intro m k v
      induction m with
      | nil => simp [assocSet]
      | cons p rest ih =>
        by_cases hk : p.1 = k
        · simp [assocSet, hk, List.lookup]
        · simp [assocSet, hk, List.lookup, ih, beq_false_of_ne (Ne.symm hk)]
    simp [processClose, h, hset]
  · intro s c h
    simp [executeCmd, h]

/-- Witness for C6: tombstoning and rejection at a concrete state. -/
theorem tombstone_spec_witness :
    (processClose ⟨"u", 0, 0, [(5, true)], 1, [(5, "u")], []⟩ 5).conns.lookup 5 =
      some false ∧
    executeCmd ⟨"u", 0, 1, [(5, false)], 0, [(5, "u")], []⟩ ⟨5, ComQuery, 0⟩ =
      ⟨"u", 0, 1, [(5, false)], 0, [(5, "u")], []⟩ :=
  ⟨tombstone_spec.1 ⟨"u", 0, 0, [(5, true)], 1, [(5, "u")], []⟩ 5 rfl,
    tombstone_spec.2 ⟨"u", 0, 1, [(5, false)], 0, [(5, "u")], []⟩ ⟨5, ComQuery, 0⟩ rfl⟩

/-- The replay fields read by `Progress` and written by `Stop`.  `started`
models `!startTime.IsZero()`. -/
structure ProgressState where
  metaCmds : ℕ
  replayedCmds : ℕ
  filteredCmds : ℕ
  progress : ℚ
  err : Option String
  started : Bool
deriving DecidableEq

/-- `replay.Progress`: when `meta.Cmds > 0` the progress is recomputed as
`(replayedCmds + filteredCmds) / meta.Cmds`; the stored error is returned
alongside. -/
def Progress (s : ProgressState) : ℚ × Option String :=
  if 0 < s.metaCmds then
    (((s.replayedCmds : ℚ) + (s.filteredCmds : ℚ)) / (s.metaCmds : ℚ), s.err)
  else (s.progress, s.err)

/-- `replay.Stop`: a no-op when already stopped; on an error it stores the
error and recomputes progress; on success it sets progress to 1. -/
def Stop (s : ProgressState) (e : Option String) : ProgressState :=
  if s.started = false then s
  else
    match e with
    | some msg =>
      { s with
        err := some msg
        progress :=
          if 0 < s.metaCmds then
            ((s.replayedCmds : ℚ) + (s.filteredCmds : ℚ)) / (s.metaCmds : ℚ)
          else s.progress
        started := false }
    | none => { s with progress := 1, started := false }

/-- Claim C5, counterexample: `Progress` does not clamp — with
`meta.Cmds = 2` and `replayedCmds = 3` (reachable when the meta command count
undercounts the chunk contents, e.g. a capture finalized on abort) it returns
3/2 > 1; and it returns exactly 1 already while the job is still running
(`started = true`, no `Stop` call yet), so 1 does not imply successful
completion. -/
theorem progress_not_clamped :
    (Progress ⟨2, 3, 0, 0, none, true⟩).1 = 3 / 2 ∧
    ¬(Progress ⟨2, 3, 0, 0, none, true⟩).1 ≤ 1 ∧
    (Progress ⟨2, 2, 0, 0, none, true⟩).1 = 1 := by
  norm_num [Progress]

/-- Claim C5 (amended): whenever `meta.Cmds > 0`, `Progress()` returns exactly
`(replayedCmds + filteredCmds) / meta.Cmds` — unclamped — together with the
stored error; a successful `Stop(nil)` sets the stored progress to 1, and
after it, when the consumed commands match `meta.Cmds`, `Progress()` returns
1. -/
theorem progress_formula_spec :
    (∀ s : ProgressState, 0 < s.metaCmds →
      (Progress s).1 = ((s.replayedCmds : ℚ) + (s.filteredCmds : ℚ)) / (s.metaCmds : ℚ) ∧
      (Progress s).2 = s.err) ∧
    (∀ s : ProgressState, s.started = true →
      (Stop s none).progress = 1 ∧ (Stop s none).err = s.err) ∧
    (∀ s : ProgressState, s.started = true → 0 < s.metaCmds →
      s.replayedCmds + s.filteredCmds = s.metaCmds → (Progress (Stop s none)).1 = 1) := by
  refine ⟨?_, ?_, ?_⟩
  · intro s h
    simp [Progress, h]
  · intro s h
    simp [Stop, h]
  · intro s h1 h2 h3
    have hcast : (s.replayedCmds : ℚ) + (s.filteredCmds : ℚ) = (s.metaCmds : ℚ) := by
      exact_mod_cast congrArg (Nat.cast : ℕ → ℚ) h3
    have hne : (s.metaCmds : ℚ) ≠ 0 := by
      exact_mod_cast Nat.pos_iff_ne_zero.mp h2
    simp [Progress, Stop, h1, h2, hcast, div_self hne]

/-- Witness for C5: the amended formula at a freshly stopped, fully consumed
job. -/
theorem progress_formula_spec_witness :
    (Progress (Stop ⟨4, 3, 1, 0, none, true⟩ none)).1 = 1 :=
  progress_formula_spec.2.2 ⟨4, 3, 1, 0, none, true⟩ rfl (by decide) rfl

/-! ### Backend metrics reader (`metricsreader/backend_reader.go`)

`model.SamplePair` carries a `model.Time` (milliseconds) and a sample value
(`float64`, modelled as `ℚ`).  Retentions and "now" are `time.Time` /
`time.Duration` nanoseconds. -/

/-- A Prometheus sample pair: millisecond timestamp and value. -/
structure SamplePair where
  timestamp : ℤ
  value : ℚ
deriving DecidableEq

/-- The survival test of the package-level `purgeHistory`:
`time.UnixMilli(p.Timestamp).Add(retention).After(now)`. -/
def sampleKept (retention now : ℤ) (p : SamplePair) : Bool :=
  decide (now < p.timestamp * 1000000 + retention)

/-- The index search of the `purgeHistory` loop: the first index whose pair
still survives (`none` when all pairs are expired). -/
def firstKeptIdx (retention now : ℤ) : List SamplePair → Option ℕ
  | [] => none
  | p :: rest =>
    if sampleKept retention now p then some 0
    else (firstKeptIdx retention now rest).map (· + 1)

/-- Package-level `purgeHistory`: drop everything before the first surviving
pair, or everything if no pair survives. -/
def purgeHistory (history : List SamplePair) (retention now : ℤ) : List SamplePair :=
  match firstKeptIdx retention now history with
  | none => []
  | some idx => history.drop idx

theorem purgeHistory_eq_dropWhile (r n : ℤ) (h : List SamplePair) :
    purgeHistory h r n = h.dropWhile (fun p => !sampleKept r n p) := by
  induction h with
  | nil => rfl
  | cons p rest ih =>
    by_cases hp : sampleKept r n p = true
    · simp [purgeHistory, firstKeptIdx, hp, List.dropWhile]
    · have hp' : sampleKept r n p = false := by simpa using hp
      rcases hfi : firstKeptIdx r n rest with _ | i
      · have hrest : rest.dropWhile (fun p => !sampleKept r n p) = [] := by
          rw [← ih]
          simp [purgeHistory, hfi]
        simp [purgeHistory, firstKeptIdx, hp', hfi, List.dropWhile, hrest]
      · have hrest : rest.dropWhile (fun p => !sampleKept r n p) = rest.drop i := by
          rw [← ih]
          simp [purgeHistory, hfi]
        simp [purgeHistory, firstKeptIdx, hp', hfi, List.dropWhile, hrest]

theorem dropWhile_idem {α : Type} (f : α → Bool) (l : List α) :
    (l.dropWhile f).dropWhile f = l.dropWhile f := by
  induction l with
  | nil => rfl
  | cons a l ih =>
    by_cases h : f a = true
    · simp [List.dropWhile, h, ih]
    · simp [List.dropWhile, h]

/-- Claim C7: on a slice with non-decreasing timestamps, `purgeHistory`
removes exactly the leading expired pairs (those whose timestamp plus
retention is not after `now`), keeps the remaining suffix in order, and is
idempotent. -/
theorem purgeHistory_spec (h : List SamplePair) (retention now : ℤ)
    (_hsorted : List.Chain' (fun p q => p.timestamp ≤ q.timestamp) h) :
    purgeHistory h retention now =
      h.dropWhile (fun p => !sampleKept retention now p) ∧
    h.takeWhile (fun p => !sampleKept retention now p) ++ purgeHistory h retention now = h ∧
    purgeHistory (purgeHistory h retention now) retention now =
      purgeHistory h retention now := by
  refine ⟨purgeHistory_eq_dropWhile retention now h, ?_, ?_⟩
  · rw [purgeHistory_eq_dropWhile]
    exact List.takeWhile_append_dropWhile _ _
  · rw [purgeHistory_eq_dropWhile, purgeHistory_eq_dropWhile, dropWhile_idem,
      ← purgeHistory_eq_dropWhile]

/-- Witness for C7 at a concrete sorted history where the first pair is
expired and the second survives. -/
theorem purgeHistory_spec_witness :
    purgeHistory [⟨0, 0⟩, ⟨10, 0⟩] 1000 2000 =
      List.dropWhile (fun p => !sampleKept 1000 2000 p) [⟨0, 0⟩, ⟨10, 0⟩] ∧
    List.takeWhile (fun p => !sampleKept 1000 2000 p) [⟨0, 0⟩, ⟨10, 0⟩] ++
      purgeHistory [⟨0, 0⟩, ⟨10, 0⟩] 1000 2000 = [⟨0, 0⟩, ⟨10, 0⟩] ∧
    purgeHistory (purgeHistory [⟨0, 0⟩, ⟨10, 0⟩] 1000 2000) 1000 2000 =
      purgeHistory [⟨0, 0⟩, ⟨10, 0⟩] 1000 2000 :=
  purgeHistory_spec [⟨0, 0⟩, ⟨10, 0⟩] 1000 2000 (by simp [List.chain'_cons])

/-- The two-step history of one `(ruleKey, backend)` pair. -/
structure BackendHistory where
  step1History : List SamplePair
  step2History : List SamplePair
deriving DecidableEq

/-- The timestamp of the last pair (only meaningful on nonempty buffers, as
in the Go code, which indexes `history[len(history)-1]` under a nonemptiness
guard). -/
def lastTimestamp (l : List SamplePair) : ℤ :=
  ((l.getLast?).map (fun p => p.timestamp)).getD 0

/-- The per-buffer choice of `mergeHistory`: take the fetched buffer when the
local one is empty, or when the fetched one is nonempty and its last sample
is strictly newer. -/
def chooseHistory (old new : List SamplePair) : List SamplePair :=
  if old = [] ∨ (new ≠ [] ∧ lastTimestamp old < lastTimestamp new) then new else old

/-- Merge of one `(ruleKey, backend)` entry: Step1 and Step2 are chosen
independently. -/
def mergeBackendHistory (old new : BackendHistory) : BackendHistory :=
  ⟨chooseHistory old.step1History new.step1History,
   chooseHistory old.step2History new.step2History⟩

/-- `mergeHistory` restricted to one rule: Go-map iteration over the fetched
entries, modelled pointwise. -/
def mergeRuleHistory (old new : String → Option BackendHistory) :
    String → Option BackendHistory :=
  fun backend =>
    match new backend with
    | none => old backend
    | some nbh =>
      match old backend with
      | none => some nbh
      | some obh => some (mergeBackendHistory obh nbh)

/-- `BackendReader.mergeHistory`: merge the history fetched from an owner
into the local history. -/
def mergeHistory (old new : String → Option (String → Option BackendHistory)) :
    String → Option (String → Option BackendHistory) :=
  fun ruleKey =>
    match new ruleKey with
    | none => old ruleKey
    | some nrh =>
      match old ruleKey with
      | none => some nrh
      | some orh => some (mergeRuleHistory orh nrh)

/-- Latest timestamp of a buffer, stated from the claim's words (`none` for an
empty buffer). -/
def lastTs (l : List SamplePair) : Option ℤ := (l.getLast?).map (fun p => p.timestamp)

/-- The claim's chooser: whichever side's latest sample has the larger
timestamp, the local side on ties (and when only it has samples). -/
def specNewer (old new : List SamplePair) : List SamplePair :=
  match lastTs old, lastTs new with
  | none, _ => new
  | some _, none => old
  | some a, some b => if a < b then new else old

theorem chooseHistory_eq_specNewer (old new : List SamplePair) :
    chooseHistory old new = specNewer old new := by
  by_cases ho : old = []
  · subst ho
    simp [chooseHistory, specNewer, lastTs]
  · rcases hlo : old.getLast? with _ | p
    · exact absurd (List.getLast?_eq_none_iff.mp hlo) ho
    · by_cases hn : new = []
      · subst hn
        simp [chooseHistory, specNewer, lastTs, hlo, ho]
      · rcases hln : new.getLast? with _ | q
        · exact absurd (List.getLast?_eq_none_iff.mp hln) hn
        · by_cases hpq : p.timestamp < q.timestamp <;>
            simp [chooseHistory, specNewer, lastTs, lastTimestamp, hlo, hln, ho, hn, hpq]

/-- Claim C8 (amended): the merge is pointwise on `(ruleKey, backend)` —
entries present on only one side are kept unchanged — and for entries present
on both sides the two buffers `Step1History` and `Step2History` are chosen
independently, each going to whichever side's latest sample is strictly newer
(the local side on ties or when the fetched buffer is empty). -/
theorem mergeHistory_spec :
    (∀ old new, chooseHistory old new = specNewer old new) ∧
    (∀ oldH newH r, newH r = none → mergeHistory oldH newH r = oldH r) ∧
    (∀ oldH newH r nrh, oldH r = none → newH r = some nrh →
      mergeHistory oldH newH r = some nrh) ∧
    (∀ oldH newH r orh nrh, oldH r = some orh → newH r = some nrh →
      mergeHistory oldH newH r = some (mergeRuleHistory orh nrh)) ∧
    (∀ orh nrh b, nrh b = none → mergeRuleHistory orh nrh b = orh b) ∧
    (∀ orh nrh b nbh, orh b = none → nrh b = some nbh →
      mergeRuleHistory orh nrh b = some nbh) ∧
    (∀ orh nrh b obh nbh, orh b = some obh → nrh b = some nbh →
      mergeRuleHistory orh nrh b =
        some ⟨specNewer obh.step1History nbh.step1History,
              specNewer obh.step2History nbh.step2History⟩) := by
  refine ⟨chooseHistory_eq_specNewer, ?_, ?_, ?_, ?_, ?_, ?_⟩
  · intro oldH newH r h
    simp [mergeHistory, h]
  · intro oldH newH r nrh ho hn
    simp [mergeHistory, ho, hn]
  · intro oldH newH r orh nrh ho hn
    simp [mergeHistory, ho, hn]
  · intro orh nrh b h
    simp [mergeRuleHistory, h]
  · intro orh nrh b nbh ho hn
    simp [mergeRuleHistory, ho, hn]
  · intro orh nrh b obh nbh ho hn
    simp [mergeRuleHistory, ho, hn, mergeBackendHistory, chooseHistory_eq_specNewer]

/-- Local history of the C8 counterexample: Step1 is newer locally, Step2 is
newer on the owner side. -/
def obhC : BackendHistory := ⟨[⟨10, 0⟩], [⟨1, 0⟩]⟩

/-- Fetched history of the C8 counterexample. -/
def nbhC : BackendHistory := ⟨[⟨5, 0⟩], [⟨20, 0⟩]⟩

/-- The local history map of the C8 counterexample: one rule, one backend. -/
def oldHC : String → Option (String → Option BackendHistory) :=
  fun r => if r = "r" then some (fun b => if b = "b" then some obhC else none) else none

/-- The fetched history map of the C8 counterexample. -/
def newHC : String → Option (String → Option BackendHistory) :=
  fun r => if r = "r" then some (fun b => if b = "b" then some nbhC else none) else none

/-- Convenience lookup of one `(ruleKey, backend)` entry. -/
def lookupHist (h : String → Option (String → Option BackendHistory)) (r b : String) :
    Option BackendHistory :=
  match h r with
  | none => none
  | some rh => rh b

/-- Claim C8, counterexample: merging `nbhC` (latest sample at 20) into
`obhC` (latest sample at 10) keeps the local Step1 buffer but the fetched
Step2 buffer, so the merged entry equals neither side's history — the merge
is per buffer, not per `(ruleKey, backend)` entry. -/
theorem mergeHistory_mixes_buffers :
    lookupHist (mergeHistory oldHC newHC) "r" "b" =
      some ⟨[⟨10, 0⟩], [⟨20, 0⟩]⟩ ∧
    (⟨[⟨10, 0⟩], [⟨20, 0⟩]⟩ : BackendHistory) ≠ obhC ∧
    (⟨[⟨10, 0⟩], [⟨20, 0⟩]⟩ : BackendHistory) ≠ nbhC := by
  refine ⟨?_, by simp [obhC], by simp [nbhC]⟩
  simp [lookupHist, mergeHistory, mergeRuleHistory, mergeBackendHistory, chooseHistory,
    lastTimestamp, oldHC, newHC, obhC, nbhC]

/-- Witness for C8: the both-sides merge equation at the counterexample's
concrete maps. -/
theorem mergeHistory_spec_witness :
    mergeRuleHistory (fun b => if b = "b" then some obhC else none)
        (fun b => if b = "b" then some nbhC else none) "b" =
      some ⟨specNewer obhC.step1History nbhC.step1History,
            specNewer obhC.step2History nbhC.step2History⟩ :=
  mergeHistory_spec.2.2.2.2.2.2 (fun b => if b = "b" then some obhC else none)
    (fun b => if b = "b" then some nbhC else none) "b" obhC nbhC rfl rfl

/-- One element of a `model.Vector`/`model.Matrix`: the `instance` label and
its samples (a vector element carries a single pair, a matrix row the copied
Step2 history; the merge logic is identical for both tags). -/
structure ValueEntry where
  instanceLabel : String
  samples : List SamplePair
deriving DecidableEq

/-- `QueryResult` (fields per the spec's data model; the Go zero value is
`⟨none, 0, none⟩`). -/
structure QueryResult where
  value : Option (List ValueEntry)
  updateTime : ℤ
  err : Option String
deriving DecidableEq

/-- The index scan of `mergeQueryResult`: position of the entry whose
`instance` label matches the scraped backend. -/
def findInstanceIdx (entries : List ValueEntry) (backend : String) : Option ℕ :=
  match entries with
  | [] => none
  | e :: rest =>
    if e.instanceLabel = backend then some 0
    else (findInstanceIdx rest backend).map (· + 1)

/-- The per-rule kernel of `mergeQueryResult`: a nil value is replaced by the
one-entry value; otherwise the entry with the matching instance label is
replaced in place, or the new entry is appended. -/
def mergeValue (oldVal : Option (List ValueEntry)) (backend : String) (e : ValueEntry) :
    List ValueEntry :=
  match oldVal with
  | none => [e]
  | some entries =>
    match findInstanceIdx entries backend with
    | some idx => entries.set idx e
    | none => entries ++ [e]

/-- Go map read with zero value: `br.queryResults[ruleKey]`. -/
def getQR (results : List (String × QueryResult)) (k : String) : QueryResult :=
  (results.lookup k).getD ⟨none, 0, none⟩

/-- `BackendReader.mergeQueryResult`: fold the per-backend values into the
shared results, stamping `UpdateTime := now`. -/
def mergeQueryResult (results : List (String × QueryResult))
    (backendValues : List (String × ValueEntry)) (backend : String) (now : ℤ) :
    List (String × QueryResult) :=
  backendValues.foldl
    (fun res kv =>
      let old := getQR res kv.1
      assocSet res kv.1
        { old with updateTime := now, value := some (mergeValue old.value backend kv.2) })
    results

/-- The multiset of `instance` labels of a value. -/
def labelsOf (entries : List ValueEntry) : List String :=
  entries.map (fun e => e.instanceLabel)

/-- The `instance` labels stored for a rule. -/
def instancesOf (results : List (String × QueryResult)) (ruleKey : String) : List String :=
  labelsOf ((getQR results ruleKey).value.getD [])

theorem assocSet_lookup_self {α β : Type} [DecidableEq α] (m : List (α × β)) (k : α)
    (v : β) : (assocSet m k v).lookup k = some v := by
  induction m with
  | nil => simp [assocSet]
  | cons p rest ih =>
    by_cases hk : p.1 = k
    · simp [assocSet, hk, List.lookup]
    · simp [assocSet, hk, List.lookup, ih, beq_false_of_ne (Ne.symm hk)]

theorem findInstanceIdx_none_iff (entries : List ValueEntry) (backend : String) :
    findInstanceIdx entries backend = none ↔ backend ∉ labelsOf entries := by
  induction entries with
  | nil => simp [findInstanceIdx, labelsOf]
  | cons e rest ih =>
    by_cases he : e.instanceLabel = backend
    · simp [findInstanceIdx, labelsOf, he]
    · simp [findInstanceIdx, labelsOf, he, Option.map_eq_none', ih, Ne.symm he]

theorem labelsOf_mergeValue (entries : List ValueEntry) (backend : String) (e : ValueEntry)
    (he : e.instanceLabel = backend) :
    labelsOf (mergeValue (some entries) backend e) =
      if backend ∈ labelsOf entries then labelsOf entries
      else labelsOf entries ++ [backend] := by
  induction entries with
  | nil => simp [mergeValue, findInstanceIdx, labelsOf, he]
  | cons a rest ih =>
    by_cases ha : a.instanceLabel = backend
    · simp [mergeValue, findInstanceIdx, ha, labelsOf, he]
    · rcases hf : findInstanceIdx rest backend with _ | i
      · have hmem : backend ∉ labelsOf rest := (findInstanceIdx_none_iff rest backend).mp hf
        have hcond : backend ∉ labelsOf (a :: rest) := by
          simp only [labelsOf, List.map_cons, List.mem_cons]
          rintro (h1 | h2)
          · exact ha h1.symm
          · exact hmem (by simpa [labelsOf] using h2)
        have hmv : mergeValue (some (a :: rest)) backend e = (a :: rest) ++ [e] := by
          simp [mergeValue, findInstanceIdx, ha, hf]
        rw [hmv, if_neg hcond]
        simp [labelsOf, he]
      · have hmem : backend ∈ labelsOf rest := by
          by_contra hh
          rw [← findInstanceIdx_none_iff rest backend] at hh
          simp [hh] at hf
        have hset : labelsOf (rest.set i e) = labelsOf rest := by
          have hr := ih
          simp only [mergeValue, hf] at hr
          simpa [hmem] using hr
        have hcond : backend ∈ labelsOf (a :: rest) := by
          simp only [labelsOf, List.map_cons, List.mem_cons]
          exact Or.inr (by simpa [labelsOf] using hmem)
        have hmv : mergeValue (some (a :: rest)) backend e = a :: rest.set i e := by
          simp [mergeValue, findInstanceIdx, ha, hf]
        rw [hmv, if_pos hcond]
        simp only [labelsOf, List.map_cons]
        exact congrArg _ (by simpa [labelsOf] using hset)

/-- Claim C9 (amended): `mergeQueryResult` replaces the element whose
`instance` label matches the just-scraped backend, or appends a new element;
consequently the rule's label set grows to the old labels plus the scraped
backend and is never pruned, so after a tick it equals the set of all
backends merged so far (not only those of the last successful scrape). -/
theorem mergeQueryResult_spec :
    (∀ entries backend e idx, findInstanceIdx entries backend = some idx →
      mergeValue (some entries) backend e = entries.set idx e) ∧
    (∀ entries backend e, findInstanceIdx entries backend = none →
      mergeValue (some entries) backend e = entries ++ [e]) ∧
    (∀ entries backend e, e.instanceLabel = backend →
      labelsOf (mergeValue (some entries) backend e) =
        if backend ∈ labelsOf entries then labelsOf entries
        else labelsOf entries ++ [backend]) ∧
    (∀ results ruleKey e backend now,
      getQR (mergeQueryResult results [(ruleKey, e)] backend now) ruleKey =
        { value := some (mergeValue (getQR results ruleKey).value backend e),
          updateTime := now, err := (getQR results ruleKey).err }) ∧
    (∀ results ruleKey backend e now, e.instanceLabel = backend →
      backend ∈ instancesOf (mergeQueryResult results [(ruleKey, e)] backend now) ruleKey) := by
  refine ⟨?_, ?_, labelsOf_mergeValue, ?_, ?_⟩
  · intro entries backend e idx h
    simp [mergeValue, h]
  · intro entries backend e h
    simp [mergeValue, h]
  · intro results ruleKey e backend now
    simp [mergeQueryResult, getQR, assocSet_lookup_self]
  · intro results ruleKey backend e now he
    have h4 : getQR (mergeQueryResult results [(ruleKey, e)] backend now) ruleKey =
        { value := some (mergeValue (getQR results ruleKey).value backend e),
          updateTime := now, err := (getQR results ruleKey).err } := by
      simp [mergeQueryResult, getQR, assocSet_lookup_self]
    rcases hov : (getQR results ruleKey).value with _ | entries
    · simp [instancesOf, h4, hov, mergeValue, labelsOf, he]
    · by_cases hmem : backend ∈ labelsOf entries
      · simp [instancesOf, h4, hov, labelsOf_mergeValue entries backend e he, hmem]
      · simp [instancesOf, h4, hov, labelsOf_mergeValue entries backend e he, hmem]

/-- The first scrape of backend b1 in the C9 scenario. -/
def qrE1 : ValueEntry := ⟨"b1", [⟨1, 5⟩]⟩

/-- The first scrape of backend b2 in the C9 scenario. -/
def qrE2 : ValueEntry := ⟨"b2", [⟨1, 7⟩]⟩

/-- Results after the first tick of the C9 scenario: both b1 and b2 scraped. -/
def tick1 : List (String × QueryResult) :=
  mergeQueryResult (mergeQueryResult [] [("R", qrE1)] "b1" 1) [("R", qrE2)] "b2" 1

/-- Results after the second tick of the C9 scenario, in which only b1 is
scraped successfully (b2 is down). -/
def tick2 : List (String × QueryResult) :=
  mergeQueryResult tick1 [("R", ⟨"b1", [⟨2, 6⟩]⟩)] "b1" 2

/-- Claim C9, counterexample: after a tick whose only successful scrape is b1,
the rule's `instance` labels are still {b1, b2} — the set of backends ever
merged — and not the last tick's scrape set {b1}. -/
theorem queryResult_retains_stale_instance :
    instancesOf tick2 "R" = ["b1", "b2"] ∧ instancesOf tick2 "R" ≠ ["b1"] := by
  constructor
  · decide
  · decide

/-- Witness for C9: replacement at a concrete one-entry result and membership
of the scraped backend. -/
theorem mergeQueryResult_spec_witness :
    mergeValue (some [qrE1]) "b1" ⟨"b1", [⟨2, 6⟩]⟩ = [qrE1].set 0 ⟨"b1", [⟨2, 6⟩]⟩ ∧
    "b1" ∈ instancesOf (mergeQueryResult [] [("R", qrE1)] "b1" 1) "R" :=
  ⟨mergeQueryResult_spec.1 [qrE1] "b1" ⟨"b1", [⟨2, 6⟩]⟩ 0 rfl,
    mergeQueryResult_spec.2.2.2.2 [] "R" "b1" qrE1 1 rfl⟩

/-- A query rule (the computable fields; the projection functions
`Metric2Value`/`Range2Value` play no role in the claims below). -/
structure QueryRule where
  names : List String
  retention : ℤ
deriving DecidableEq

/-- The maps of `BackendReader` guarded by its mutex. -/
structure BackendReaderState where
  queryRules : List (String × QueryRule)
  queryResults : List (String × QueryResult)
  history : List (String × List (String × BackendHistory))
deriving DecidableEq

/-- `BackendReader.GetQueryResult`: a pure map read returning the Go zero
value for an absent key, together with the (unchanged) state. -/
def GetQueryResult (s : BackendReaderState) (key : String) :
    QueryResult × BackendReaderState :=
  ((s.queryResults.lookup key).getD ⟨none, 0, none⟩, s)

/-- Claim C10: `GetQueryResult` always returns a `QueryResult` — the zero
result `⟨none, 0, none⟩` when the key was never stored — and leaves the
reader's rules, results, and history unchanged. -/
theorem getQueryResult_spec (s : BackendReaderState) (key : String) :
    (GetQueryResult s key).2 = s ∧
    (s.queryResults.lookup key = none → (GetQueryResult s key).1 = ⟨none, 0, none⟩) ∧
    (∀ qr, s.queryResults.lookup key = some qr → (GetQueryResult s key).1 = qr) := by
  refine ⟨rfl, ?_, ?_⟩
  · intro h
    simp [GetQueryResult, h]
  · intro qr h
    simp [GetQueryResult, h]

/-- Witness for C10: the zero result on an empty reader. -/
theorem getQueryResult_spec_witness :
    (GetQueryResult ⟨[], [], []⟩ "missing").1 = ⟨none, 0, none⟩ :=
  (getQueryResult_spec ⟨[], [], []⟩ "missing").2.1 rfl
